import Mathlib

/-!
Verification development for the banking-locator ingestion pipeline
(`src/data/kb/kapital_bank_scraper.py`).

The Python pipeline is embedded shallowly:

* JSON scalar values reaching a raw record are modelled by `JVal`
  (JSON numbers as rationals; float nan/inf, exponent literals and
  underscore separators of Python's `float()` are not modelled, and the
  textual rendering of a number by `str()` is canonical rather than
  Python's repr — no claim depends on those inputs).
* `normalize_text`, `process_location_data`, `save_locations_to_db`,
  `verify_table_exists` and `run_scraper` mirror the functions of the
  same names.  Database state is a list of rows; the single open
  transaction of `save_locations_to_db` is modelled by the pair
  (committed, current): `cur.execute` of the upsert statement updates
  `current`, `conn.rollback()` resets `current` to `committed`, and the
  final `conn.commit()` publishes `current`.
* Store-level per-record errors are injected by the list `errIdx` of
  failing record indices; a batch-level failure of
  `save_locations_to_db` (connection loss before any statement) is the
  flag `saveRaises`; a fetch failure (`fetch_endpoint_data` returning
  `None`) is `fetch = none`.
* `created_at` / `updated_at` are set by the store and touched only via
  `CURRENT_TIMESTAMP ` refreshes; no claim is about wall-clock values, so
  they are omitted from `Row`.
* Python truthiness (`if item.get('lat') and item.get('lng')`) is
  `JVal.truthy`; Python's `str.strip` / `str.lower` are `pyStrip` /
  `pyLower` (ASCII case folding — all inputs of interest are ASCII).
-/

/-- A JSON scalar value as it appears in a raw record. -/
inductive JVal where
  | null : JVal
  | str (s : String) : JVal
  | num (q : ℚ) : JVal
  | bool (b : Bool) : JVal
deriving DecidableEq

/-- Python truthiness of a JSON scalar (`if item.get('lat') and ...`). -/
def JVal.truthy : JVal → Bool
  | JVal.null => false
  | JVal.str s => !s.isEmpty
  | JVal.num q => decide (q ≠ 0)
  | JVal.bool b => b

/-- Truthiness of `item.get(k)`: a missing key yields `None`, which is falsy. -/
def truthyOpt : Option JVal → Bool
  | none => false
  | some v => v.truthy

/-- Canonical rendering of a rational, standing in for Python's number repr
(always a non-empty string, which is the only property the code relies on). -/
def ratRepr (q : ℚ) : String :=
  toString q.num ++ "/" ++ toString q.den

/-- Python `str()` applied to a JSON scalar. -/
def jvalToStr : JVal → String
  | JVal.null => "None"
  | JVal.str s => s
  | JVal.num q => ratRepr q
  | JVal.bool true => "True"
  | JVal.bool false => "False"

/-- `str(item.get(k, ''))`: a missing key defaults to the empty string. -/
def pyStrOpt : Option JVal → String
  | none => ""
  | some v => jvalToStr v

/-- Python `str.strip()` on a character list: whitespace removed from
both ends. -/
def trimChars (l : List Char) : List Char :=
  ((l.dropWhile Char.isWhitespace).reverse.dropWhile Char.isWhitespace).reverse

/-- Python `str.strip()`. -/
def pyStrip (s : String) : String :=
  String.mk (trimChars s.data)

/-- Python `str.lower()` (ASCII case folding, which covers every input
of interest). -/
def pyLower (s : String) : String :=
  String.mk (s.data.map Char.toLower)

/-- Numeric value of a list of decimal digit characters. -/
def decDigitsVal (ds : List Char) : ℕ :=
  ds.foldl (fun a c => a * 10 + (c.toNat - 48)) 0

/-- Parse an unsigned decimal literal: digits with at most one point,
at least one digit in total (`"40"`, `"40.1"`, `"40."`, `".5"`). -/
def parseUnsigned (l : List Char) : Option ℚ :=
  match l.splitOn (Char.ofNat 46) with
  | [ip] =>
    if !ip.isEmpty && ip.all Char.isDigit then some (decDigitsVal ip) else none
  | [ip, fp] =>
    if (!ip.isEmpty || !fp.isEmpty) && ip.all Char.isDigit && fp.all Char.isDigit then
      some ((decDigitsVal ip : ℚ) + (decDigitsVal fp : ℚ) / (10 : ℚ) ^ fp.length)
    else none
  | _ => none

/-- Parse an optionally signed decimal literal. -/
def parseSigned (l : List Char) : Option ℚ :=
  match l with
  | c :: rest =>
    if c = Char.ofNat 43 then parseUnsigned rest
    else if c = Char.ofNat 45 then (parseUnsigned rest).map (fun q => -q)
    else parseUnsigned l
  | [] => none

/-- Model of Python `float(s)` for a string: surrounding whitespace is
ignored, then an optionally signed decimal literal is parsed. -/
def parseDecimal (s : String) : Option ℚ :=
  parseSigned (trimChars s.data)

/-- Model of Python `float(v)` on a JSON scalar: numbers pass through,
strings are parsed, booleans coerce to 0/1, `None` raises (`none`). -/
def pyFloat : JVal → Option ℚ
  | JVal.null => none
  | JVal.str s => parseDecimal s
  | JVal.num q => some q
  | JVal.bool b => some (if b then 1 else 0)

/-- One raw record of an endpoint payload; only the keys the pipeline
reads (`name`, `address`, `lat`, `lng`, `id`). A `none` field is a
missing key. -/
structure RawItem where
  name : Option JVal
  address : Option JVal
  lat : Option JVal
  lng : Option JVal
  id : Option JVal
deriving DecidableEq

/-- One entry of `self.endpoints` (the Source Descriptor). -/
structure Endpoint where
  name : String
  company : String
  type : String
  url : String
deriving DecidableEq

/-- Punctuation stripped by `normalize_text` (the regex class
`[.,;:!?()"\x27-]`). -/
def punctChars : List Char :=
  [Char.ofNat 46, Char.ofNat 44, Char.ofNat 59, Char.ofNat 58,
   Char.ofNat 33, Char.ofNat 63, Char.ofNat 40, Char.ofNat 41,
   Char.ofNat 34, Char.ofNat 39, Char.ofNat 45]

/-- `re.sub(r'\s+', ' ', text)`: each maximal run of whitespace becomes a
single space. The boolean records whether the previous character was
whitespace. -/
def collapseWsAux : List Char → Bool → List Char
  | [], _ => []
  | c :: rest, prevWs =>
    if c.isWhitespace then
      if prevWs then collapseWsAux rest true
      else Char.ofNat 32 :: collapseWsAux rest true
    else c :: collapseWsAux rest false

/-- Whitespace-run collapsing on strings. -/
def collapseWs (s : String) : String :=
  String.mk (collapseWsAux s.data false)

/-- `re.sub` removal of the punctuation class. -/
def removePunct (s : String) : String :=
  String.mk (s.data.filter (fun c => !punctChars.contains c))

/-- `normalize_text`: falsy input yields `""`; otherwise lower-case,
strip, collapse whitespace runs, then remove punctuation — in that
order, exactly as in the source. -/
def normalize_text (text : String) : String :=
  if text = "" then ""
  else removePunct (collapseWs (pyStrip (pyLower text)))

/-- Coordinate extraction of `process_location_data`: the truthiness
guard, `float()` conversion of both fields, and the Azerbaijan bounding
box check `38 <= lat <= 42 and 44 <= lon <= 52`; every rejection path
sets both coordinates to `None`. -/
def extractCoords (la ln : Option JVal) : Option ℚ × Option ℚ :=
  if truthyOpt la && truthyOpt ln then
    match la, ln with
    | some va, some vb =>
      match pyFloat va, pyFloat vb with
      | some qa, some qb =>
        if 38 ≤ qa ∧ qa ≤ 42 ∧ 44 ≤ qb ∧ qb ≤ 52 then (some qa, some qb)
        else (none, none)
      | _, _ => (none, none)
    | _, _ => (none, none)
  else (none, none)

/-- A Canonical Location as built by `process_location_data` (the dict
pushed onto `processed_locations`). -/
structure Location where
  company : String
  type : String
  name : String
  address : String
  lat : Option ℚ
  lon : Option ℚ
  external_id : String
deriving DecidableEq

/-- The in-batch duplicate-detection key
`(endpoint['company'], endpoint['type'], normalize_text(name), normalize_text(address))`. -/
abbrev NormKey := String × String × String × String

/-- The normalized Identity Key of a canonical location. -/
def Location.normKey (l : Location) : NormKey :=
  (l.company, l.type, normalize_text l.name, normalize_text l.address)

/-- The per-item body of `process_location_data` without the in-batch
duplicate check: coordinate extraction, name/address extraction and the
missing-name/address drop. `none` is the `continue` (dropped record). -/
def transformOne (e : Endpoint) (item : RawItem) : Option Location :=
  let c := extractCoords item.lat item.lng
  let name := pyStrip (pyStrOpt item.name)
  let address := pyStrip (pyStrOpt item.address)
  if name = "" ∨ address = "" then none
  else some ⟨e.company, e.type, name, address, c.1, c.2, pyStrOpt item.id⟩

/-- The loop of `process_location_data`: `seen` is the `seen_locations`
set of normalized keys already emitted in this batch. -/
def processGo (e : Endpoint) : List RawItem → List NormKey → List Location
  | [], _ => []
  | item :: rest, seen =>
    let c := extractCoords item.lat item.lng
    let name := pyStrip (pyStrOpt item.name)
    let address := pyStrip (pyStrOpt item.address)
    if name = "" ∨ address = "" then processGo e rest seen
    else
      let key : NormKey := (e.company, e.type, normalize_text name, normalize_text address)
      if key ∈ seen then processGo e rest seen
      else ⟨e.company, e.type, name, address, c.1, c.2, pyStrOpt item.id⟩ ::
        processGo e rest (key :: seen)

/-- `process_location_data(raw_data, endpoint)`: transform, validate and
deduplicate one batch. -/
def process_location_data (raw : List RawItem) (e : Endpoint) : List Location :=
  processGo e raw []

/-- The in-batch deduplication step in isolation, on canonical records
(the `seen_locations` logic of the loop). -/
def dedupeGo : List NormKey → List Location → List Location
  | _, [] => []
  | seen, x :: rest =>
    if x.normKey ∈ seen then dedupeGo seen rest
    else x :: dedupeGo (x.normKey :: seen) rest

/-- The Batch Deduplicator: first record per normalized Identity Key wins. -/
def dedupe_batch (l : List Location) : List Location :=
  dedupeGo [] l

/-- One persisted row of `banking_locator.locations` (timestamps are
store-managed and carry no claim content, so they are omitted). -/
structure Row where
  company : String
  type : String
  name : String
  address : String
  lat : Option ℚ
  lon : Option ℚ
deriving DecidableEq

/-- The raw conflict-target key of the store's unique constraint
`UNIQUE (company, type, name, address)` — the UNNORMALIZED fields. -/
def Row.key (r : Row) : NormKey :=
  (r.company, r.type, r.name, r.address)

/-- Normalized Identity Key of a persisted row. -/
def Row.normKey (r : Row) : NormKey :=
  (r.company, r.type, normalize_text r.name, normalize_text r.address)

/-- Raw conflict-target key of a canonical location. -/
def Location.key (l : Location) : NormKey :=
  (l.company, l.type, l.name, l.address)

/-- The row inserted for a location by the upsert statement. -/
def Location.row (l : Location) : Row :=
  ⟨l.company, l.type, l.name, l.address, l.lat, l.lon⟩

/-- Outcome reported by `RETURNING ... CASE WHEN xmax = 0 THEN 'INSERT'
ELSE 'UPDATE' END`. -/
inductive Op where
  | insert : Op
  | update : Op
deriving DecidableEq

/-- One execution of the upsert statement: `INSERT ... ON CONFLICT
(company, type, name, address) DO UPDATE SET lat = EXCLUDED.lat, lon =
EXCLUDED.lon` against the current transaction view. -/
def upsertOne (store : List Row) (loc : Location) : List Row × Op :=
  if store.any (fun r => decide (r.key = loc.key)) then
    (store.map (fun r => if r.key = loc.key then { r with lat := loc.lat, lon := loc.lon } else r),
     Op.update)
  else (store ++ [loc.row], Op.insert)

/-- Sequential upserts (a transaction segment with no failure). -/
def applyUpserts (store : List Row) (locs : List Location) : List Row :=
  locs.foldl (fun st l => (upsertOne st l).1) store

/-- Result of `save_locations_to_db`: the committed store and the three
counters (the Python function returns only `inserted, updated`;
`failed_count` is computed and logged). -/
structure SaveOut where
  store : List Row
  inserted : ℕ
  updated : ℕ
  failed : ℕ
deriving DecidableEq

/-- The record loop of `save_locations_to_db`. `errIdx` lists the
indices whose `cur.execute` raises a store-level error; on such an
error the handler counts the failure and calls `conn.rollback()`, which
discards the WHOLE open transaction (`current` reverts to `committed`).
The final `conn.commit()` publishes `current`. -/
def saveGo (errIdx : List ℕ) :
    List Location → ℕ → List Row → List Row → ℕ → ℕ → ℕ → SaveOut
  | [], _, _committed, current, ins, upd, fl => ⟨current, ins, upd, fl⟩
  | loc :: rest, i, committed, current, ins, upd, fl =>
    if i ∈ errIdx then
      saveGo errIdx rest (i + 1) committed committed ins upd (fl + 1)
    else
      match upsertOne current loc with
      | (current', Op.insert) => saveGo errIdx rest (i + 1) committed current' (ins + 1) upd fl
      | (current', Op.update) => saveGo errIdx rest (i + 1) committed current' ins (upd + 1) fl

/-- `save_locations_to_db(locations, ...)` on a committed store; an
empty batch returns immediately (`return 0, 0`). -/
def save_locations_to_db (errIdx : List ℕ) (locs : List Location) (store : List Row) : SaveOut :=
  if locs.isEmpty then ⟨store, 0, 0, 0⟩
  else saveGo errIdx locs 0 store store 0 0 0

/-- Shape of the persistent store as seen by `verify_table_exists`. -/
structure DbSchema where
  reachable : Bool
  tableExists : Bool
  columns : List String
deriving DecidableEq

/-- The column list required by `verify_table_exists`. -/
def required_columns : List String :=
  ["id", "company", "type", "name", "address", "lat", "lon", "created_at", "updated_at"]

/-- `verify_table_exists` succeeds iff the store is reachable, the table
exists and every required column is present; otherwise it raises. -/
def verify_table_exists (s : DbSchema) : Bool :=
  s.reachable && s.tableExists && required_columns.all (fun c => s.columns.contains c)

/-- One configured source together with the behaviour of the external
world for this run: `fetch = none` models `fetch_endpoint_data`
returning `None` (network/HTTP/JSON failure); `saveRaises` models an
exception escaping `save_locations_to_db` (connection lost before any
statement, caught by the per-endpoint handler); `errIdx` are the
per-record store errors inside the batch. -/
structure SourceRun where
  endpoint : Endpoint
  fetch : Option (List RawItem)
  saveRaises : Bool
  errIdx : List ℕ

/-- Run-level aggregates of `run_scraper`, plus the number of executed
`time.sleep(2)` cooldowns. -/
structure RunTotals where
  processed : ℕ
  inserted : ℕ
  updated : ℕ
  sleeps : ℕ
deriving DecidableEq

/-- The per-endpoint loop of `run_scraper`: a fetch failure `continue`s
(skipping the cooldown), an exception from the save step is caught and
`continue`s (skipping the cooldown), an empty processed batch skips the
save but still sleeps, and a successful save accumulates counters and
sleeps. -/
def runSources : List SourceRun → List Row → RunTotals → List Row × RunTotals
  | [], store, t => (store, t)
  | s :: rest, store, t =>
    match s.fetch with
    | none => runSources rest store t
    | some raw =>
      if s.saveRaises then runSources rest store t
      else
        let locs := process_location_data raw s.endpoint
        if locs.isEmpty then
          runSources rest store { t with sleeps := t.sleeps + 1 }
        else
          let out := save_locations_to_db s.errIdx locs store
          runSources rest out.store
            { processed := t.processed + locs.length
              inserted := t.inserted + out.inserted
              updated := t.updated + out.updated
              sleeps := t.sleeps + 1 }

/-- `run_scraper`: schema verification first (a failure raises before
any write reaches the store; `ensure_unique_constraint` never raises and
`get_statistics` is read-only, so neither appears), then the per-source
loop. -/
def run_scraper (schema : DbSchema) (sources : List SourceRun) (store : List Row) :
    List Row × Except String RunTotals :=
  if verify_table_exists schema then
    let r := runSources sources store ⟨0, 0, 0, 0⟩
    (r.1, Except.ok r.2)
  else
    (store, Except.error "Table banking_locator.locations does not exist or is malformed")

/-! ### Concrete fixtures used by witnesses and counterexamples -/

/-- The ATM endpoint of `self.endpoints`. -/
def atmEndpoint : Endpoint :=
  { name := "ATM locations"
    company := "Kapital Bank"
    type := "atm"
    url := "https://www.kapitalbank.az/locations/region?is_nfc=false&weekend=false&type=atm" }

/-- A well-formed raw ATM record (integer JSON coordinates keep every
rational literal normalization-free, so witnesses evaluate by kernel
reduction). -/
def itemA1 : RawItem :=
  { name := some (JVal.str " ATM One ")
    address := some (JVal.str "Main St 1")
    lat := some (JVal.num 40)
    lng := some (JVal.num 49)
    id := some (JVal.str "a1") }

/-- The canonical location `process_location_data` builds from `itemA1`. -/
def locA1 : Location :=
  { company := "Kapital Bank"
    type := "atm"
    name := "ATM One"
    address := "Main St 1"
    lat := some 40
    lon := some 49
    external_id := "a1" }

/-- A raw record whose address differs from `itemA1`-style data only in
punctuation/case (same normalized Identity Key, different raw key). -/
def itemP : RawItem :=
  { name := some (JVal.str "ATM One")
    address := some (JVal.str "Nizami St. 96")
    lat := some (JVal.num 40)
    lng := some (JVal.num 49)
    id := some (JVal.str "a1") }

/-- Same location as `itemP` up to normalization, different raw address. -/
def itemQ : RawItem :=
  { name := some (JVal.str "ATM One")
    address := some (JVal.str "nizami st 96")
    lat := some (JVal.num 40)
    lng := some (JVal.num 50)
    id := some (JVal.str "a2") }

/-- A schema that satisfies `verify_table_exists`. -/
def okSchema : DbSchema :=
  { reachable := true, tableExists := true, columns := required_columns }

/-- A schema whose table is missing. -/
def badSchema : DbSchema :=
  { reachable := true, tableExists := false, columns := required_columns }

/-- A healthy source serving `itemP`. -/
def srcP : SourceRun :=
  { endpoint := atmEndpoint, fetch := some [itemP], saveRaises := false, errIdx := [] }

/-- A healthy source serving `itemQ`. -/
def srcQ : SourceRun :=
  { endpoint := atmEndpoint, fetch := some [itemQ], saveRaises := false, errIdx := [] }

/-- A source whose fetch fails (`fetch_endpoint_data` returns `None`). -/
def fetchFailSrc : SourceRun :=
  { endpoint := atmEndpoint, fetch := none, saveRaises := false, errIdx := [] }

/-- The n-th location of the ten-record counterexample batch. -/
def cexLoc (n : ℕ) : Location :=
  { company := "Kapital Bank"
    type := "atm"
    name := "Branch " ++ toString n
    address := "Addr " ++ toString n
    lat := none
    lon := none
    external_id := toString n }

/-- A batch of ten pairwise-distinct locations. -/
def cexBatch : List Location :=
  (List.range 10).map cexLoc

/-- A malformed raw record: whitespace-only name. -/
def itemNoName : RawItem :=
  { name := some (JVal.str "  ")
    address := some (JVal.str "Main St 1")
    lat := none
    lng := none
    id := none }

/-- The store produced by ingesting `itemP` in one run and `itemQ` in a
second run against an initially empty (hence trivially unique) store. -/
def c1Store : List Row :=
  (run_scraper okSchema [srcQ] (run_scraper okSchema [srcP] []).1).1

/-! ### Character-level helpers -/

theorem charOfNat_toNat (n : ℕ) (hv : n.isValidChar) : (Char.ofNat n).toNat = n := by
  rw [Char.ofNat, dif_pos hv]
  rfl

theorem char_isUpper_eq (c : Char) :
    c.isUpper = (decide (65 ≤ c.toNat) && decide (c.toNat ≤ 90)) := rfl

theorem toLower_not_isUpper (c : Char) : (Char.toLower c).isUpper = false := by
  show (if c.toNat ≥ 65 ∧ c.toNat ≤ 90 then Char.ofNat (c.toNat + 32) else c).isUpper = false
  split
  · rename_i h
    have hv : (c.toNat + 32).isValidChar := Or.inl (by omega)
    rw [char_isUpper_eq, charOfNat_toNat _ hv]
    simp only [Bool.and_eq_false_iff, decide_eq_false_iff_not]
    omega
  · rename_i h
    rw [char_isUpper_eq]
    simp only [Bool.and_eq_false_iff, decide_eq_false_iff_not]
    omega

theorem mem_collapseWsAux {c : Char} : ∀ {l : List Char} {b : Bool},
    c ∈ collapseWsAux l b → c = Char.ofNat 32 ∨ c ∈ l
  | [], b, h => by simp [collapseWsAux] at h
  | d :: rest, b, h => by
    by_cases hw : d.isWhitespace
    · by_cases hb : b
      · subst hb
        simp only [collapseWsAux, hw, if_pos, if_true] at h
        rcases mem_collapseWsAux h with h1 | h1
        · exact Or.inl h1
        · exact Or.inr (List.mem_cons_of_mem _ h1)
      · simp only [collapseWsAux, hw, if_pos] at h
        rw [if_neg hb] at h
        rcases List.mem_cons.mp h with h1 | h1
        · exact Or.inl h1
        · rcases mem_collapseWsAux h1 with h2 | h2
          · exact Or.inl h2
          · exact Or.inr (List.mem_cons_of_mem _ h2)
    · simp only [collapseWsAux, hw, if_neg, if_false] at h
      rcases List.mem_cons.mp h with h1 | h1
      · exact Or.inr (h1 ▸ List.mem_cons_self _ _)
      · rcases mem_collapseWsAux h1 with h2 | h2
        · exact Or.inl h2
        · exact Or.inr (List.mem_cons_of_mem _ h2)

theorem mem_trimChars {c : Char} {l : List Char} (h : c ∈ trimChars l) : c ∈ l := by
  unfold trimChars at h
  rw [List.mem_reverse] at h
  have h1 := (List.dropWhile_sublist _).mem h
  rw [List.mem_reverse] at h1
  exact (List.dropWhile_sublist _).mem h1

/-! ### C6 — Text Normalizer -/

/-- C6 counterexample: the OUTPUT of `normalize_text` is neither
whitespace-collapsed nor trimmed, because the source collapses
whitespace BEFORE removing punctuation: removing a punctuation
character that sat between two spaces leaves two adjacent spaces
(`"a . b" ↦ "a  b"`), and removing a leading punctuation character
leaves a leading space (`" . a" ↦ " a"`). This refutes the claim that
the returned string has every whitespace run collapsed to a single
space and leading/trailing whitespace trimmed. -/
theorem normalize_text_output_counterexample :
    normalize_text "a . b" = "a  b" ∧
    collapseWs (normalize_text "a . b") ≠ normalize_text "a . b" ∧
    normalize_text " . a" = " a" ∧
    pyStrip (normalize_text " . a") ≠ normalize_text " . a" := by
  refine ⟨by decide, by decide, by decide, by decide⟩

/-- C6 (amended): `normalize_text` lower-cases, trims, collapses
whitespace runs and then removes the punctuation class, in that order;
consequently the output is lower-case and free of the punctuation
characters, the empty input yields the empty string, and
`normalize_text "Nizami St.  96," = normalize_text "nizami st 96"` —
but the punctuation removal may leave adjacent or leading/trailing
spaces in the output (see the counterexample). -/
theorem normalize_text_spec :
    (∀ s : String, ∀ c ∈ (normalize_text s).data,
      c ∉ punctChars ∧ c.isUpper = false) ∧
    normalize_text "" = "" ∧
    normalize_text "Nizami St.  96," = normalize_text "nizami st 96" := by
  refine ⟨?_, by decide, by decide⟩
  intro s c hc
  unfold normalize_text at hc
  by_cases hs : s = ""
  · rw [if_pos hs] at hc
    simp at hc
  · rw [if_neg hs] at hc
    unfold removePunct at hc
    rw [List.mem_filter] at hc
    obtain ⟨hmem, hfilt⟩ := hc
    constructor
    · simpa using hfilt
    · rcases mem_collapseWsAux hmem with h | h
      · subst h
        decide
      · have h1 := mem_trimChars h
        have h2 : c ∈ (pyLower s).data → c.isUpper = false := by
          intro hx
          rw [show (pyLower s).data = s.data.map Char.toLower from rfl, List.mem_map] at hx
          obtain ⟨d, _, rfl⟩ := hx
          exact toLower_not_isUpper d
        exact h2 h1

/-- Witness for `normalize_text_spec`: instantiated at a concrete
string and character. -/
theorem normalize_text_spec_witness :
    (Char.ofNat 110 ∈ (normalize_text "Nizami St.  96,").data) ∧
    (Char.ofNat 110 ∉ punctChars ∧ (Char.ofNat 110).isUpper = false) :=
  ⟨by decide, normalize_text_spec.1 "Nizami St.  96," (Char.ofNat 110) (by decide)⟩

/-! ### C4 — Coordinate Validator -/

/-- A falsy JSON value never yields a `float()` result at least 2
(`None` and `""` fail to parse; `0`, `0.0` and `False` parse to 0), so a
value that parses into the operating bounding box passed the truthiness
guard. -/
theorem truthy_of_pyFloat_ge {v : JVal} {q : ℚ} (h : pyFloat v = some q) (hq : 2 ≤ q) :
    v.truthy = true := by
  cases v with
  | null => simp [pyFloat] at h
  | str s =>
    show (!s.isEmpty) = true
    by_cases he : s = ""
    · subst he
      rw [show pyFloat (JVal.str "") = none from by decide] at h
      exact Option.noConfusion h
    · cases hE : s.isEmpty with
      | true => exact absurd ((String.isEmpty_iff s).mp hE) he
      | false => rfl
  | num q' =>
    simp only [pyFloat, Option.some.injEq] at h
    subst h
    simp only [JVal.truthy, decide_eq_true_eq]
    intro h0
    rw [h0] at hq
    norm_num at hq
  | bool b =>
    cases b
    · simp only [pyFloat, if_false, Option.some.injEq] at h
      rw [← h] at hq
      norm_num at hq
    · rfl

/-- Reduction of `extractCoords` once the truthiness guard has passed. -/
theorem extractCoords_truthy_eq (va vb : JVal)
    (hg : (truthyOpt (some va) && truthyOpt (some vb)) = true) :
    extractCoords (some va) (some vb) =
      match pyFloat va, pyFloat vb with
      | some qa, some qb =>
        if 38 ≤ qa ∧ qa ≤ 42 ∧ 44 ≤ qb ∧ qb ≤ 52 then (some qa, some qb) else (none, none)
      | _, _ => (none, none) := by
  unfold extractCoords
  rw [if_pos hg]

/-- If both coordinate fields are present, parse, and satisfy the
bounding box, `extractCoords` returns exactly the parsed pair. -/
theorem extractCoords_of_valid {la ln : Option JVal} {va vb : JVal} {qa qb : ℚ}
    (ha : la = some va) (hb : ln = some vb)
    (hfa : pyFloat va = some qa) (hfb : pyFloat vb = some qb)
    (hba : 38 ≤ qa) (hba' : qa ≤ 42) (hbb : 44 ≤ qb) (hbb' : qb ≤ 52) :
    extractCoords la ln = (some qa, some qb) := by
  subst ha hb
  have hta : va.truthy = true := truthy_of_pyFloat_ge hfa (le_trans (by norm_num) hba)
  have htb : vb.truthy = true := truthy_of_pyFloat_ge hfb (le_trans (by norm_num) hbb)
  rw [extractCoords_truthy_eq va vb (by simp [truthyOpt, hta, htb]), hfa, hfb]
  exact if_pos ⟨hba, hba', hbb, hbb'⟩

/-- On every other input, `extractCoords` rejects and sets BOTH
coordinates to `None`. -/
theorem extractCoords_none_of_invalid {la ln : Option JVal}
    (h : ¬ ∃ va vb qa qb, la = some va ∧ ln = some vb ∧
      pyFloat va = some qa ∧ pyFloat vb = some qb ∧
      38 ≤ qa ∧ qa ≤ 42 ∧ 44 ≤ qb ∧ qb ≤ 52) :
    extractCoords la ln = (none, none) := by
  by_cases hg : (truthyOpt la && truthyOpt ln) = true
  · cases la with
    | none => simp [truthyOpt] at hg
    | some va =>
      cases ln with
      | none => simp [truthyOpt] at hg
      | some vb =>
        rw [extractCoords_truthy_eq va vb hg]
        rcases hfa : pyFloat va with _ | qa <;> rcases hfb : pyFloat vb with _ | qb <;>
          simp only []
        · by_cases hbd : 38 ≤ qa ∧ qa ≤ 42 ∧ 44 ≤ qb ∧ qb ≤ 52
          · exact absurd ⟨va, vb, qa, qb, rfl, rfl, hfa, hfb,
              hbd.1, hbd.2.1, hbd.2.2.1, hbd.2.2.2⟩ h
          · exact if_neg hbd
  · unfold extractCoords
    rw [if_neg hg]

/-- C4: for every raw record, the transformed record's latitude and
longitude are BOTH present iff both raw coordinate fields are present,
both parse as decimal numbers, and the parsed values lie within
`38 ≤ lat ≤ 42` and `44 ≤ lon ≤ 52` (bounds inclusive); on every other
path both are absent, and a record is never dropped for a coordinate
reason (a single-record batch is dropped iff its name or address is
empty after trimming, independently of the coordinate fields). -/
theorem coordinate_validation_spec :
    (∀ la ln : Option JVal,
      ((extractCoords la ln).1.isSome ↔ (extractCoords la ln).2.isSome) ∧
      ((extractCoords la ln).1.isSome ↔
        ∃ va vb qa qb, la = some va ∧ ln = some vb ∧
          pyFloat va = some qa ∧ pyFloat vb = some qb ∧
          38 ≤ qa ∧ qa ≤ 42 ∧ 44 ≤ qb ∧ qb ≤ 52)) ∧
    (∀ (e : Endpoint) (item : RawItem),
      process_location_data [item] e = [] ↔
        pyStrip (pyStrOpt item.name) = "" ∨ pyStrip (pyStrOpt item.address) = "") ∧
    (∀ (e : Endpoint) (item : RawItem) (loc : Location),
      transformOne e item = some loc →
        loc.lat = (extractCoords item.lat item.lng).1 ∧
        loc.lon = (extractCoords item.lat item.lng).2) := by
  refine ⟨?_, ?_, ?_⟩
  · intro la ln
    by_cases hP : ∃ va vb qa qb, la = some va ∧ ln = some vb ∧
        pyFloat va = some qa ∧ pyFloat vb = some qb ∧
        38 ≤ qa ∧ qa ≤ 42 ∧ 44 ≤ qb ∧ qb ≤ 52
    · obtain ⟨va, vb, qa, qb, ha, hb, hfa, hfb, h1, h2, h3, h4⟩ := hP
      rw [extractCoords_of_valid ha hb hfa hfb h1 h2 h3 h4]
      refine ⟨by simp, iff_of_true (by simp) ?_⟩
      exact ⟨va, vb, qa, qb, ha, hb, hfa, hfb, h1, h2, h3, h4⟩
    · rw [extractCoords_none_of_invalid hP]
      exact ⟨Iff.rfl, iff_of_false (by simp) hP⟩
  · intro e item
    show processGo e [item] [] = [] ↔ _
    by_cases h : pyStrip (pyStrOpt item.name) = "" ∨ pyStrip (pyStrOpt item.address) = ""
    · simp [processGo, h]
    · simp [processGo, h]
  · intro e item loc h
    unfold transformOne at h
    by_cases hd : pyStrip (pyStrOpt item.name) = "" ∨ pyStrip (pyStrOpt item.address) = ""
    · simp [hd] at h
    · simp only [hd, if_false] at h
      rw [← Option.some_inj.mp h]
      exact ⟨rfl, rfl⟩

/-- Witness for `coordinate_validation_spec`: its transform part applied
to the concrete record `itemA1`. -/
theorem coordinate_validation_spec_witness :
    (transformOne atmEndpoint itemA1 = some locA1) ∧
    (locA1.lat = (extractCoords itemA1.lat itemA1.lng).1 ∧
     locA1.lon = (extractCoords itemA1.lat itemA1.lng).2) :=
  ⟨by decide, coordinate_validation_spec.2.2 atmEndpoint itemA1 locA1 (by decide)⟩

/-! ### C5 — Batch Deduplicator -/

theorem dedupeGo_sublist (seen : List NormKey) (l : List Location) :
    (dedupeGo seen l).Sublist l := by
  induction l generalizing seen with
  | nil => simp [dedupeGo]
  | cons x rest ih =>
    simp only [dedupeGo]
    split
    · exact (ih seen).cons x
    · exact (ih _).cons₂ x

theorem mem_dedupeGo_not_seen {x : Location} {seen : List NormKey} {l : List Location}
    (h : x ∈ dedupeGo seen l) : x.normKey ∉ seen := by
  induction l generalizing seen with
  | nil => simp [dedupeGo] at h
  | cons y rest ih =>
    simp only [dedupeGo] at h
    split at h
    · exact ih h
    · rename_i hns
      rcases List.mem_cons.mp h with h1 | h1
      · subst h1
        exact hns
      · have h2 := ih h1
        intro hc
        exact h2 (List.mem_cons_of_mem _ hc)

theorem dedupeGo_pairwise (seen : List NormKey) (l : List Location) :
    (dedupeGo seen l).Pairwise (fun a b => a.normKey ≠ b.normKey) := by
  induction l generalizing seen with
  | nil => simp [dedupeGo]
  | cons x rest ih =>
    simp only [dedupeGo]
    split
    · exact ih seen
    · refine List.Pairwise.cons ?_ (ih _)
      intro y hy hc
      exact (mem_dedupeGo_not_seen hy) (hc ▸ List.mem_cons_self _ _)

theorem dedupeGo_find {k : NormKey} {seen : List NormKey} (l : List Location)
    (hk : k ∉ seen) :
    (dedupeGo seen l).find? (fun x => decide (x.normKey = k)) =
      l.find? (fun x => decide (x.normKey = k)) := by
  induction l generalizing seen with
  | nil => rfl
  | cons x rest ih =>
    simp only [dedupeGo]
    split
    · rename_i hseen
      have hx : ¬ (x.normKey = k) := fun hc => hk (hc ▸ hseen)
      rw [ih hk, List.find?_cons_of_neg _ (by simpa using hx)]
    · rename_i hseen
      by_cases px : x.normKey = k
      · rw [List.find?_cons_of_pos _ (by simpa using px),
          List.find?_cons_of_pos _ (by simpa using px)]
      · rw [List.find?_cons_of_neg _ (by simpa using px),
          List.find?_cons_of_neg _ (by simpa using px)]
        exact ih (by
          intro hc
          rcases List.mem_cons.mp hc with h1 | h1
          · exact px h1.symm
          · exact hk h1)

/-- The fused loop of `process_location_data` factors as the standalone
Batch Deduplicator composed with the per-record transformer. -/
theorem processGo_eq_dedupe (e : Endpoint) : ∀ (raw : List RawItem) (seen : List NormKey),
    processGo e raw seen = dedupeGo seen (raw.filterMap (transformOne e)) := by
  intro raw
  induction raw with
  | nil => intro seen; rfl
  | cons item rest ih =>
    intro seen
    simp only [processGo, List.filterMap_cons]
    by_cases hd : pyStrip (pyStrOpt item.name) = "" ∨ pyStrip (pyStrOpt item.address) = ""
    · rw [if_pos hd]
      have ht : transformOne e item = none := by simp [transformOne, hd]
      rw [ht]
      exact ih seen
    · rw [if_neg hd]
      have ht : transformOne e item = some ⟨e.company, e.type, pyStrip (pyStrOpt item.name),
          pyStrip (pyStrOpt item.address), (extractCoords item.lat item.lng).1,
          (extractCoords item.lat item.lng).2, pyStrOpt item.id⟩ := by
        simp [transformOne, hd]
      rw [ht]
      by_cases hmem : (e.company, e.type, normalize_text (pyStrip (pyStrOpt item.name)),
          normalize_text (pyStrip (pyStrOpt item.address))) ∈ seen
      · simp only [dedupeGo, Location.normKey]
        rw [if_pos hmem, if_pos hmem]
        exact ih seen
      · simp only [dedupeGo, Location.normKey]
        rw [if_neg hmem, if_neg hmem]
        exact congrArg _ (ih _)

/-- C5: the Batch Deduplicator keeps exactly the first record observed
for each normalized Identity Key (`find?` for any key agrees with the
input), discards every later record sharing a key (output keys are
pairwise distinct), preserves the input's relative order (the output is
a sublist of the input), and is exactly what `process_location_data`
applies after per-record transformation. -/
theorem batch_dedup_spec :
    (∀ l : List Location,
      (dedupe_batch l).Sublist l ∧
      (dedupe_batch l).Pairwise (fun a b => a.normKey ≠ b.normKey) ∧
      (∀ k : NormKey,
        (dedupe_batch l).find? (fun x => decide (x.normKey = k)) =
          l.find? (fun x => decide (x.normKey = k)))) ∧
    (∀ (raw : List RawItem) (e : Endpoint),
      process_location_data raw e = dedupe_batch (raw.filterMap (transformOne e))) := by
  constructor
  · intro l
    exact ⟨dedupeGo_sublist [] l, dedupeGo_pairwise [] l,
      fun k => dedupeGo_find l (List.not_mem_nil k)⟩
  · intro raw e
    exact processGo_eq_dedupe e raw []

/-! ### C7 — Record Transformer -/

theorem mem_processGo {e : Endpoint} {loc : Location} :
    ∀ {raw : List RawItem} {seen : List NormKey}, loc ∈ processGo e raw seen →
      loc.name ≠ "" ∧ loc.address ≠ "" ∧ loc.company = e.company ∧ loc.type = e.type := by
  intro raw
  induction raw with
  | nil =>
    intro seen h
    simp [processGo] at h
  | cons item rest ih =>
    intro seen h
    simp only [processGo] at h
    split at h
    · exact ih h
    · rename_i hd
      split at h
      · exact ih h
      · rcases List.mem_cons.mp h with h1 | h1
        · subst h1
          push_neg at hd
          exact ⟨hd.1, hd.2, rfl, rfl⟩
        · exact ih h1

/-- C7: the Record Transformer is a total function by construction (it
can only drop records, never raise); it drops every record whose name
or address is empty after trimming, and every record it emits has
non-empty name and address and takes organization/category from the
Source Descriptor, not from the raw record. -/
theorem transformer_safety :
    (∀ (e : Endpoint) (item : RawItem),
      (pyStrip (pyStrOpt item.name) = "" ∨ pyStrip (pyStrOpt item.address) = "") →
        transformOne e item = none) ∧
    (∀ (e : Endpoint) (raw : List RawItem) (loc : Location),
      loc ∈ process_location_data raw e →
        loc.name ≠ "" ∧ loc.address ≠ "" ∧ loc.company = e.company ∧ loc.type = e.type) := by
  constructor
  · intro e item hd
    simp [transformOne, hd]
  · intro e raw loc h
    exact mem_processGo h

/-- Witness for `transformer_safety`: a whitespace-only name is dropped;
the well-formed record `itemA1` is emitted with the endpoint's
organization/category. -/
theorem transformer_safety_witness :
    ((pyStrip (pyStrOpt itemNoName.name) = "" ∨ pyStrip (pyStrOpt itemNoName.address) = "") ∧
     transformOne atmEndpoint itemNoName = none) ∧
    ((locA1 ∈ process_location_data [itemA1] atmEndpoint) ∧
     (locA1.name ≠ "" ∧ locA1.address ≠ "" ∧ locA1.company = atmEndpoint.company ∧
      locA1.type = atmEndpoint.type)) :=
  ⟨⟨by decide, transformer_safety.1 atmEndpoint itemNoName (by decide)⟩,
   ⟨by decide, transformer_safety.2 atmEndpoint [itemA1] locA1 (by decide)⟩⟩

/-! ### C10 / C2 — Upsert Engine counters and rollback semantics -/

theorem saveGo_counts (errIdx : List ℕ) :
    ∀ (locs : List Location) (i : ℕ) (committed current : List Row) (ins upd fl : ℕ),
      (saveGo errIdx locs i committed current ins upd fl).inserted +
      (saveGo errIdx locs i committed current ins upd fl).updated +
      (saveGo errIdx locs i committed current ins upd fl).failed =
        ins + upd + fl + locs.length := by
  intro locs
  induction locs with
  | nil =>
    intro i c cur ins upd fl
    simp [saveGo]
  | cons loc rest ih =>
    intro i c cur ins upd fl
    simp only [saveGo]
    split
    · rw [ih]
      simp only [List.length_cons]
      omega
    · rcases hu : upsertOne cur loc with ⟨cur', op⟩
      cases op
      · simp only []
        rw [ih]
        simp only [List.length_cons]
        omega
      · simp only []
        rw [ih]
        simp only [List.length_cons]
        omega

/-- C10: every record of a batch is classified exactly once: for any
pattern of per-record store errors, the inserted/updated/failed counters
of `save_locations_to_db` sum to the number of records in the batch
(in the model every successful upsert statement returns a row, which is
what the `RETURNING` clause of the source guarantees). -/
theorem upsert_counts_partition (errIdx : List ℕ) (locs : List Location) (store : List Row) :
    (save_locations_to_db errIdx locs store).inserted +
    (save_locations_to_db errIdx locs store).updated +
    (save_locations_to_db errIdx locs store).failed = locs.length := by
  unfold save_locations_to_db
  split
  · rename_i h
    simp [List.isEmpty_iff.mp h]
  · have h := saveGo_counts errIdx locs 0 store store 0 0 0
    simpa using h

/-- Once the single failing index is in the past, `saveGo` is a plain
fold of upserts over the current transaction view, with no further
failures. -/
theorem saveGo_store_past_err (errIdx : List ℕ) :
    ∀ (locs : List Location) (i : ℕ) (committed current : List Row) (ins upd fl : ℕ),
      (∀ j ∈ errIdx, j < i) →
      (saveGo errIdx locs i committed current ins upd fl).store = applyUpserts current locs ∧
      (saveGo errIdx locs i committed current ins upd fl).failed = fl := by
  intro locs
  induction locs with
  | nil =>
    intro i c cur ins upd fl h
    exact ⟨rfl, rfl⟩
  | cons loc rest ih =>
    intro i c cur ins upd fl h
    simp only [saveGo]
    rw [if_neg (fun hmem => absurd (h i hmem) (lt_irrefl i))]
    rcases hu : upsertOne cur loc with ⟨cur', op⟩
    have h' : ∀ j ∈ errIdx, j < i + 1 := fun j hj => Nat.lt_succ_of_lt (h j hj)
    cases op
    · simpa [applyUpserts, List.foldl_cons, hu] using ih (i + 1) c cur' (ins + 1) upd fl h'
    · simpa [applyUpserts, List.foldl_cons, hu] using ih (i + 1) c cur' ins (upd + 1) fl h'

/-- With exactly one failing index `k` inside the batch, the committed
store is the fold of the upserts of the records AFTER index `k` over the
previously committed store — the earlier records' statements are
discarded by the transaction-wide `conn.rollback()` — and exactly one
failure is counted. -/
theorem saveGo_single_err (k : ℕ) :
    ∀ (locs : List Location) (i : ℕ) (committed current : List Row) (ins upd fl : ℕ),
      i ≤ k → k < i + locs.length →
      (saveGo [k] locs i committed current ins upd fl).store =
        applyUpserts committed (locs.drop (k + 1 - i)) ∧
      (saveGo [k] locs i committed current ins upd fl).failed = fl + 1 := by
  intro locs
  induction locs with
  | nil =>
    intro i c cur ins upd fl h1 h2
    simp at h2
    omega
  | cons loc rest ih =>
    intro i c cur ins upd fl h1 h2
    by_cases hik : i = k
    · subst hik
      simp only [saveGo]
      rw [if_pos (by simp)]
      have hpast : ∀ j ∈ [i], j < i + 1 := by
        intro j hj
        simp at hj
        omega
      obtain ⟨hs, hf⟩ := saveGo_store_past_err [i] rest (i + 1) c c ins upd (fl + 1) hpast
      refine ⟨?_, hf⟩
      rw [hs]
      have e1 : i + 1 - i = 1 := by omega
      simp only [e1, List.drop_succ_cons, List.drop_zero]
    · have hik' : i < k := lt_of_le_of_ne h1 hik
      simp only [saveGo]
      rw [if_neg (by simp; omega)]
      rcases hu : upsertOne cur loc with ⟨cur', op⟩
      have h1' : i + 1 ≤ k := hik'
      have h2' : k < i + 1 + rest.length := by
        simp only [List.length_cons] at h2
        omega
      have edrop : k + 1 - i = (k + 1 - (i + 1)) + 1 := by omega
      cases op
      · obtain ⟨hs, hf⟩ := ih (i + 1) c cur' (ins + 1) upd fl h1' h2'
        refine ⟨?_, by simpa using hf⟩
        simp only []
        rw [hs, edrop, List.drop_succ_cons]
      · obtain ⟨hs, hf⟩ := ih (i + 1) c cur' ins (upd + 1) fl h1' h2'
        refine ⟨?_, by simpa using hf⟩
        simp only []
        rw [hs, edrop, List.drop_succ_cons]

/-- C2 (amended): a store-level error on one record of a batch is
caught, counted in `failedCount`, and does not abort the batch — the
remaining records are still processed and counted, so a ten-record
batch with one failure reports `failedCount = 1` and nine successful
outcomes — but the error handler's `conn.rollback()` discards the WHOLE
open transaction, so only the effects of the records AFTER the failing
one reach the committed store; the effects of the records before the
failure are lost. -/
theorem upsert_single_failure (locs : List Location) (store : List Row) (k : ℕ)
    (hk : k < locs.length) :
    (save_locations_to_db [k] locs store).failed = 1 ∧
    (save_locations_to_db [k] locs store).inserted +
      (save_locations_to_db [k] locs store).updated = locs.length - 1 ∧
    (save_locations_to_db [k] locs store).store = applyUpserts store (locs.drop (k + 1)) := by
  have hne : ¬ locs.isEmpty = true := by
    cases locs
    · simp at hk
    · simp
  unfold save_locations_to_db
  rw [if_neg hne]
  obtain ⟨hs, hf⟩ := saveGo_single_err k locs 0 store store 0 0 0 (Nat.zero_le k) (by omega)
  have hc := saveGo_counts [k] locs 0 store store 0 0 0
  refine ⟨by simpa using hf, ?_, by simpa using hs⟩
  omega

/-- Witness for `upsert_single_failure`: the ten-record batch with a
failure at index 4. -/
theorem upsert_single_failure_witness :
    (4 < cexBatch.length) ∧
    ((save_locations_to_db [4] cexBatch []).failed = 1 ∧
     (save_locations_to_db [4] cexBatch []).inserted +
       (save_locations_to_db [4] cexBatch []).updated = cexBatch.length - 1 ∧
     (save_locations_to_db [4] cexBatch []).store = applyUpserts [] (cexBatch.drop (4 + 1))) :=
  ⟨by decide, upsert_single_failure cexBatch [] 4 (by decide)⟩

/-- C2 counterexample: in a ten-record batch of pairwise-distinct fresh
records where record 5 (index 4) raises a store-level error, the
counters report `failedCount = 1` and nine successful outcomes, but the
rollback is transaction-wide rather than per-statement: only the five
records after the failure are committed, and record 1's row — counted as
inserted — is NOT in the store. This refutes the claim that the failure
rolls back only the failing record's statement and that the other nine
records' effects are persisted. -/
theorem upsert_rollback_counterexample :
    (save_locations_to_db [4] cexBatch []).failed = 1 ∧
    (save_locations_to_db [4] cexBatch []).inserted = 9 ∧
    (save_locations_to_db [4] cexBatch []).updated = 0 ∧
    (save_locations_to_db [4] cexBatch []).store.length = 5 ∧
    (cexLoc 0).row ∉ (save_locations_to_db [4] cexBatch []).store := by
  refine ⟨by decide, by decide, by decide, by decide, by decide⟩

/-! ### C1 — store-level uniqueness -/

theorem upsertOne_any_iff (store : List Row) (k : NormKey) :
    (store.any (fun r => decide (r.key = k)) = true) ↔ k ∈ store.map Row.key := by
  rw [List.any_eq_true]
  constructor
  · rintro ⟨r, hr, hk⟩
    rw [decide_eq_true_eq] at hk
    exact hk ▸ List.mem_map_of_mem Row.key hr
  · intro hm
    rw [List.mem_map] at hm
    obtain ⟨r, hr, hk⟩ := hm
    exact ⟨r, hr, by rw [decide_eq_true_eq]; exact hk⟩

theorem upsertOne_present {store : List Row} {loc : Location}
    (h : loc.key ∈ store.map Row.key) :
    upsertOne store loc =
      (store.map (fun r =>
        if r.key = loc.key then { r with lat := loc.lat, lon := loc.lon } else r),
       Op.update) := by
  unfold upsertOne
  rw [if_pos ((upsertOne_any_iff store loc.key).mpr h)]

theorem upsertOne_absent {store : List Row} {loc : Location}
    (h : loc.key ∉ store.map Row.key) :
    upsertOne store loc = (store ++ [loc.row], Op.insert) := by
  unfold upsertOne
  rw [if_neg (fun hc => h ((upsertOne_any_iff store loc.key).mp hc))]

/-- The conflict-update statement never changes any row's raw key. -/
theorem map_key_update (store : List Row) (loc : Location) :
    (store.map (fun r =>
      if r.key = loc.key then { r with lat := loc.lat, lon := loc.lon } else r)).map Row.key
      = store.map Row.key := by
  rw [List.map_map]
  apply List.map_congr_left
  intro r _
  simp only [Function.comp_apply]
  split
  · rfl
  · rfl

/-- The key multiset of the store after one upsert: unchanged on the
conflict path, extended by the fresh key on the insert path. -/
theorem upsertOne_map_key (store : List Row) (loc : Location) :
    ((upsertOne store loc).1.map Row.key = store.map Row.key ∧
     loc.key ∈ store.map Row.key) ∨
    ((upsertOne store loc).1.map Row.key = store.map Row.key ++ [loc.key] ∧
     loc.key ∉ store.map Row.key) := by
  by_cases h : loc.key ∈ store.map Row.key
  · left
    refine ⟨?_, h⟩
    rw [upsertOne_present h]
    exact map_key_update store loc
  · right
    refine ⟨?_, h⟩
    rw [upsertOne_absent h, List.map_append]
    rfl

theorem upsertOne_nodup {store : List Row} {loc : Location}
    (h : (store.map Row.key).Nodup) : ((upsertOne store loc).1.map Row.key).Nodup := by
  rcases upsertOne_map_key store loc with ⟨h1, _⟩ | ⟨h1, h2⟩
  · rw [h1]
    exact h
  · rw [h1, List.nodup_append]
    refine ⟨h, List.nodup_singleton _, ?_⟩
    intro x hx hmem
    rw [List.mem_singleton] at hmem
    exact h2 (hmem ▸ hx)

theorem saveGo_nodup (errIdx : List ℕ) :
    ∀ (locs : List Location) (i : ℕ) (committed current : List Row) (ins upd fl : ℕ),
      (committed.map Row.key).Nodup → (current.map Row.key).Nodup →
      ((saveGo errIdx locs i committed current ins upd fl).store.map Row.key).Nodup := by
  intro locs
  induction locs with
  | nil =>
    intro i c cur ins upd fl hc hcur
    exact hcur
  | cons loc rest ih =>
    intro i c cur ins upd fl hc hcur
    simp only [saveGo]
    split
    · exact ih (i + 1) c c ins upd (fl + 1) hc hc
    · rcases hu : upsertOne cur loc with ⟨cur', op⟩
      have hcur' : (cur'.map Row.key).Nodup := by
        have h2 := @upsertOne_nodup cur loc hcur
        rw [hu] at h2
        exact h2
      cases op
      · exact ih _ c cur' _ _ _ hc hcur'
      · exact ih _ c cur' _ _ _ hc hcur'

theorem save_nodup (errIdx : List ℕ) (locs : List Location) (store : List Row)
    (h : (store.map Row.key).Nodup) :
    ((save_locations_to_db errIdx locs store).store.map Row.key).Nodup := by
  unfold save_locations_to_db
  split
  · exact h
  · exact saveGo_nodup errIdx locs 0 store store 0 0 0 h h

theorem runSources_nodup :
    ∀ (sources : List SourceRun) (store : List Row) (t : RunTotals),
      (store.map Row.key).Nodup →
      ((runSources sources store t).1.map Row.key).Nodup := by
  intro sources
  induction sources with
  | nil =>
    intro store t h
    exact h
  | cons s rest ih =>
    intro store t h
    simp only [runSources]
    rcases s.fetch with _ | raw
    · exact ih store t h
    · simp only []
      split
      · exact ih store t h
      · split
        · exact ih store _ h
        · exact ih _ _ (save_nodup s.errIdx _ store h)

/-- C1 (amended): the persistent store's uniqueness constraint is on the
RAW key `(company, type, name, address)`, not on the normalized Identity
Key: any number of pipeline runs preserves pairwise-distinct RAW keys of
the persisted rows (per-record failures and rollbacks included). -/
theorem run_scraper_preserves_raw_key_unique (schema : DbSchema)
    (sources : List SourceRun) (store : List Row)
    (h : (store.map Row.key).Nodup) :
    (((run_scraper schema sources store).1).map Row.key).Nodup := by
  unfold run_scraper
  split
  · exact runSources_nodup sources store ⟨0, 0, 0, 0⟩ h
  · exact h

/-- Witness for `run_scraper_preserves_raw_key_unique`: one concrete run
on the empty store. -/
theorem run_scraper_preserves_raw_key_unique_witness :
    ((([] : List Row).map Row.key).Nodup) ∧
    (((run_scraper okSchema [srcP] []).1).map Row.key).Nodup :=
  ⟨by decide, run_scraper_preserves_raw_key_unique okSchema [srcP] [] (by decide)⟩

/-- C1 counterexample: two runs over sources whose records denote the
same location up to normalization (`"Nizami St. 96"` vs
`"nizami st 96"`) leave TWO distinct rows in the initially-empty (hence
identity-unique) store sharing one normalized Identity Key: the store
constraint deduplicates only the raw key, so the claimed store-level
uniqueness of the NORMALIZED key is false. -/
theorem store_normkey_counterexample :
    c1Store.length = 2 ∧
    (c1Store.map Row.key).Nodup ∧
    ¬ (c1Store.map Row.normKey).Nodup := by
  refine ⟨by decide, by decide, by decide⟩

/-! ### C8 / C9 — Orchestrator error policy and cooldown -/

/-- A source whose fetch fails or whose save raises is a no-op of the
per-endpoint loop: the `continue` paths leave store and totals
untouched. -/
theorem runSources_skip {s : SourceRun} (hbad : s.fetch = none ∨ s.saveRaises = true) :
    ∀ (pre post : List SourceRun) (store : List Row) (t : RunTotals),
      runSources (pre ++ s :: post) store t = runSources (pre ++ post) store t := by
  intro pre
  induction pre with
  | nil =>
    intro post store t
    simp only [List.nil_append, runSources]
    rcases hbad with h | h
    · rw [h]
    · rcases hf : s.fetch with _ | raw
      · rfl
      · simp only [h, if_true]
  | cons x rest ih =>
    intro post store t
    simp only [List.cons_append, runSources]
    rcases hf : x.fetch with _ | raw
    · exact ih post store t
    · simp only []
      split
      · exact ih post store t
      · split
        · exact ih post store _
        · exact ih post _ _

/-- C8: a failed precondition (store unreachable, table missing, or a
required column missing) makes `run_scraper` abort with the raised
error before any write — the store is returned untouched — whereas a
failure confined to one source (fetch failure or an exception while
processing the source) is caught and the remaining sources are
processed exactly as if the failing source were not configured: a single
source's failure never aborts the run. -/
theorem orchestrator_error_policy :
    (∀ (schema : DbSchema) (sources : List SourceRun) (store : List Row),
      verify_table_exists schema = false →
      run_scraper schema sources store =
        (store, Except.error "Table banking_locator.locations does not exist or is malformed")) ∧
    (∀ (schema : DbSchema) (pre post : List SourceRun) (s : SourceRun) (store : List Row),
      verify_table_exists schema = true →
      (s.fetch = none ∨ s.saveRaises = true) →
      run_scraper schema (pre ++ s :: post) store = run_scraper schema (pre ++ post) store) := by
  constructor
  · intro schema sources store h
    unfold run_scraper
    rw [if_neg (by simp [h])]
  · intro schema pre post s store hv hbad
    unfold run_scraper
    rw [if_pos hv, if_pos hv, runSources_skip hbad pre post store ⟨0, 0, 0, 0⟩]

/-- Witness for `orchestrator_error_policy`: the missing-table schema
aborts with the store untouched; a fetch-failing source in front of a
healthy one changes nothing. -/
theorem orchestrator_error_policy_witness :
    ((verify_table_exists badSchema = false) ∧
     run_scraper badSchema [srcP] [] =
       ([], Except.error "Table banking_locator.locations does not exist or is malformed")) ∧
    ((verify_table_exists okSchema = true) ∧
     (fetchFailSrc.fetch = none ∨ fetchFailSrc.saveRaises = true) ∧
     run_scraper okSchema ([] ++ fetchFailSrc :: [srcP]) [] =
       run_scraper okSchema ([] ++ [srcP]) []) :=
  ⟨⟨by decide, orchestrator_error_policy.1 badSchema [srcP] [] (by decide)⟩,
   ⟨by decide, by decide,
    orchestrator_error_policy.2 okSchema [] [srcP] fetchFailSrc [] (by decide) (by decide)⟩⟩

theorem runSources_sleeps :
    ∀ (sources : List SourceRun) (store : List Row) (t : RunTotals),
      (runSources sources store t).2.sleeps =
        t.sleeps + sources.countP (fun s => s.fetch.isSome && !s.saveRaises) := by
  intro sources
  induction sources with
  | nil =>
    intro store t
    simp [runSources]
  | cons s rest ih =>
    intro store t
    simp only [runSources, List.countP_cons]
    rcases hf : s.fetch with _ | raw
    · rw [ih]
      simp [hf]
    · simp only []
      split
      · rename_i hr
        rw [ih]
        simp [hf, hr]
      · rename_i hr
        split
        · rw [ih]
          simp only [hf, Option.isSome_some, Bool.true_and, hr]
          simp
          omega
        · rw [ih]
          simp only [hf, Option.isSome_some, Bool.true_and, hr]
          simp
          omega

/-- C9 (amended): the fixed cooldown (`time.sleep(2)`) is executed only
after sources whose fetch succeeded and whose processing did not raise;
the failure paths `continue` PAST the sleep, so the number of cooldowns
of a run equals the number of successfully processed sources, not the
number of configured sources. -/
theorem cooldown_spec (schema : DbSchema) (sources : List SourceRun) (store : List Row)
    (hv : verify_table_exists schema = true) :
    (run_scraper schema sources store).2 =
      Except.ok (runSources sources store ⟨0, 0, 0, 0⟩).2 ∧
    (runSources sources store ⟨0, 0, 0, 0⟩).2.sleeps =
      sources.countP (fun s => s.fetch.isSome && !s.saveRaises) := by
  constructor
  · unfold run_scraper
    rw [if_pos hv]
  · rw [runSources_sleeps]
    simp

/-- Witness for `cooldown_spec`: a healthy source followed by a failing
one yields exactly one cooldown. -/
theorem cooldown_spec_witness :
    (verify_table_exists okSchema = true) ∧
    ((run_scraper okSchema [srcP, fetchFailSrc] []).2 =
       Except.ok (runSources [srcP, fetchFailSrc] [] ⟨0, 0, 0, 0⟩).2 ∧
     (runSources [srcP, fetchFailSrc] [] ⟨0, 0, 0, 0⟩).2.sleeps =
       [srcP, fetchFailSrc].countP (fun s => s.fetch.isSome && !s.saveRaises)) :=
  ⟨by decide, cooldown_spec okSchema [srcP, fetchFailSrc] [] (by decide)⟩

/-- C9 counterexample: a run over ONE configured source whose fetch
fails performs ZERO cooldowns — the `continue` after the fetch error
skips `time.sleep(2)` — refuting the claim that the cooldown occurs
after every source's processing regardless of success or failure (that
claim requires one cooldown for this one-source run). -/
theorem cooldown_counterexample :
    (run_scraper okSchema [fetchFailSrc] []).2 =
      Except.ok { processed := 0, inserted := 0, updated := 0, sleeps := 0 } ∧
    [fetchFailSrc].length = 1 := by
  refine ⟨rfl, by decide⟩

/-! ### C3 — Idempotence -/

theorem applyUpserts_cons (store : List Row) (loc : Location) (rest : List Location) :
    applyUpserts store (loc :: rest) = applyUpserts (upsertOne store loc).1 rest := rfl

theorem applyUpserts_key_mono {k : NormKey} :
    ∀ (locs : List Location) (store : List Row),
      k ∈ store.map Row.key → k ∈ (applyUpserts store locs).map Row.key := by
  intro locs
  induction locs with
  | nil =>
    intro store h
    exact h
  | cons loc rest ih =>
    intro store h
    rw [applyUpserts_cons]
    apply ih
    rcases upsertOne_map_key store loc with ⟨h1, _⟩ | ⟨h1, _⟩
    · rw [h1]
      exact h
    · rw [h1]
      exact List.mem_append_left _ h

theorem applyUpserts_own_key {loc : Location} :
    ∀ (locs : List Location) (store : List Row), loc ∈ locs →
      loc.key ∈ (applyUpserts store locs).map Row.key := by
  intro locs
  induction locs with
  | nil =>
    intro store h
    simp at h
  | cons x rest ih =>
    intro store h
    rcases List.mem_cons.mp h with h1 | h1
    · subst h1
      rw [applyUpserts_cons]
      apply applyUpserts_key_mono
      rcases upsertOne_map_key store loc with ⟨h2, hp⟩ | ⟨h2, _⟩
      · rw [h2]
        exact hp
      · rw [h2]
        exact List.mem_append_right _ (List.mem_singleton_self _)
    · rw [applyUpserts_cons]
      exact ih _ h1

theorem saveGo_key_mono {k : NormKey} (errIdx : List ℕ) :
    ∀ (locs : List Location) (i : ℕ) (committed current : List Row) (ins upd fl : ℕ),
      k ∈ committed.map Row.key → k ∈ current.map Row.key →
      k ∈ (saveGo errIdx locs i committed current ins upd fl).store.map Row.key := by
  intro locs
  induction locs with
  | nil =>
    intro i c cur ins upd fl hc hcur
    exact hcur
  | cons loc rest ih =>
    intro i c cur ins upd fl hc hcur
    simp only [saveGo]
    split
    · exact ih (i + 1) c c ins upd (fl + 1) hc hc
    · rcases hu : upsertOne cur loc with ⟨cur', op⟩
      have hcur' : k ∈ cur'.map Row.key := by
        rcases upsertOne_map_key cur loc with ⟨h1, _⟩ | ⟨h1, _⟩ <;> rw [hu] at h1
        · rw [h1]
          exact hcur
        · rw [h1]
          exact List.mem_append_left _ hcur
      cases op
      · exact ih _ c cur' _ _ _ hc hcur'
      · exact ih _ c cur' _ _ _ hc hcur'

theorem save_key_mono {k : NormKey} (errIdx : List ℕ) (locs : List Location) (store : List Row)
    (h : k ∈ store.map Row.key) :
    k ∈ (save_locations_to_db errIdx locs store).store.map Row.key := by
  unfold save_locations_to_db
  split
  · exact h
  · exact saveGo_key_mono errIdx locs 0 store store 0 0 0 h h

/-- With no record-level errors, `save_locations_to_db` is a plain fold
of upserts over the committed store. -/
theorem save_noerr_store (locs : List Location) (store : List Row) :
    (save_locations_to_db [] locs store).store = applyUpserts store locs := by
  unfold save_locations_to_db
  split
  · rename_i he
    rw [List.isEmpty_iff.mp he]
    rfl
  · exact (saveGo_store_past_err [] locs 0 store store 0 0 0 (by simp)).1

theorem save_noerr_own_key {l : Location} (locs : List Location) (store : List Row)
    (hl : l ∈ locs) :
    l.key ∈ (save_locations_to_db [] locs store).store.map Row.key := by
  rw [save_noerr_store]
  exact applyUpserts_own_key locs store hl

/-- When every record's raw key is already present, an error-free batch
classifies every record as an update: no inserts, the key list (hence
the row count) is unchanged. -/
theorem saveGo_all_present :
    ∀ (locs : List Location) (i : ℕ) (committed current : List Row) (ins upd fl : ℕ),
      (∀ l ∈ locs, l.key ∈ current.map Row.key) →
      (saveGo [] locs i committed current ins upd fl).store.map Row.key =
        current.map Row.key ∧
      (saveGo [] locs i committed current ins upd fl).inserted = ins ∧
      (saveGo [] locs i committed current ins upd fl).updated = upd + locs.length := by
  intro locs
  induction locs with
  | nil =>
    intro i c cur ins upd fl h
    exact ⟨rfl, rfl, by simp [saveGo]⟩
  | cons loc rest ih =>
    intro i c cur ins upd fl h
    simp only [saveGo]
    rw [if_neg (List.not_mem_nil i)]
    have hpres : loc.key ∈ cur.map Row.key := h loc (List.mem_cons_self _ _)
    rw [upsertOne_present hpres]
    simp only []
    have hkeys := map_key_update cur loc
    have h' : ∀ l ∈ rest, l.key ∈ ((cur.map fun r =>
        if r.key = loc.key then { r with lat := loc.lat, lon := loc.lon } else r).map Row.key) := by
      intro l hl
      rw [hkeys]
      exact h l (List.mem_cons_of_mem _ hl)
    obtain ⟨hs, hi, hu⟩ := ih (i + 1) c _ ins (upd + 1) fl h'
    refine ⟨?_, hi, ?_⟩
    · rw [hs, hkeys]
    · rw [hu]
      simp only [List.length_cons]
      omega

theorem save_all_present (locs : List Location) (store : List Row)
    (h : ∀ l ∈ locs, l.key ∈ store.map Row.key) :
    (save_locations_to_db [] locs store).store.map Row.key = store.map Row.key ∧
    (save_locations_to_db [] locs store).inserted = 0 ∧
    (save_locations_to_db [] locs store).updated = locs.length := by
  unfold save_locations_to_db
  split
  · rename_i he
    rw [List.isEmpty_iff.mp he]
    exact ⟨rfl, rfl, rfl⟩
  · obtain ⟨a, b, c⟩ := saveGo_all_present locs 0 store store 0 0 0 h
    exact ⟨a, b, by simpa using c⟩

theorem runSources_key_mono {k : NormKey} :
    ∀ (sources : List SourceRun) (store : List Row) (t : RunTotals),
      k ∈ store.map Row.key → k ∈ (runSources sources store t).1.map Row.key := by
  intro sources
  induction sources with
  | nil =>
    intro store t h
    exact h
  | cons s rest ih =>
    intro store t h
    simp only [runSources]
    rcases hf : s.fetch with _ | raw
    · exact ih store t h
    · simp only []
      split
      · exact ih store t h
      · split
        · exact ih store _ h
        · exact ih _ _ (save_key_mono s.errIdx _ store h)

/-- After a run over healthy sources, every key of every record the run
transformed is present in the resulting store. -/
theorem runSources_all_keys :
    ∀ (sources : List SourceRun) (store : List Row) (t : RunTotals),
      (∀ s ∈ sources, s.saveRaises = false ∧ s.errIdx = []) →
      ∀ s ∈ sources, ∀ raw, s.fetch = some raw →
        ∀ l ∈ process_location_data raw s.endpoint,
          l.key ∈ (runSources sources store t).1.map Row.key := by
  intro sources
  induction sources with
  | nil =>
    intro store t hok s hs
    simp at hs
  | cons s0 rest ih =>
    intro store t hok s hs raw hraw l hl
    have hok0 := hok s0 (List.mem_cons_self _ _)
    have hokr : ∀ x ∈ rest, x.saveRaises = false ∧ x.errIdx = [] :=
      fun x hx => hok x (List.mem_cons_of_mem _ hx)
    simp only [runSources]
    rcases hf : s0.fetch with _ | raw0
    · rcases List.mem_cons.mp hs with h1 | h1
      · subst h1
        rw [hf] at hraw
        exact Option.noConfusion hraw
      · exact ih store t hokr s h1 raw hraw l hl
    · rw [hok0.1]
      simp only [if_false, Bool.false_eq_true]
      split
      · rename_i hemp
        rcases List.mem_cons.mp hs with h1 | h1
        · subst h1
          rw [hf] at hraw
          rw [Option.some_inj.mp hraw] at hemp
          rw [List.isEmpty_iff.mp hemp] at hl
          exact absurd hl (List.not_mem_nil l)
        · exact ih store _ hokr s h1 raw hraw l hl
      · rcases List.mem_cons.mp hs with h1 | h1
        · subst h1
          rw [hf] at hraw
          rw [← Option.some_inj.mp hraw] at hl
          apply runSources_key_mono
          rw [hok0.2]
          exact save_noerr_own_key _ store hl
        · exact ih _ _ hokr s h1 raw hraw l hl

/-- Second-run behaviour: over healthy sources whose transformed
records' keys are all already present, a run changes no key (hence no
row count), inserts nothing, and classifies every processed record as
an update. -/
theorem runSources_all_present :
    ∀ (sources : List SourceRun) (store : List Row) (t : RunTotals),
      (∀ s ∈ sources, s.saveRaises = false ∧ s.errIdx = []) →
      (∀ s ∈ sources, ∀ raw, s.fetch = some raw →
        ∀ l ∈ process_location_data raw s.endpoint, l.key ∈ store.map Row.key) →
      (runSources sources store t).1.map Row.key = store.map Row.key ∧
      (runSources sources store t).2.inserted = t.inserted ∧
      (runSources sources store t).2.updated + t.processed =
        (runSources sources store t).2.processed + t.updated := by
  intro sources
  induction sources with
  | nil =>
    intro store t hok hkeys
    exact ⟨rfl, rfl, Nat.add_comm _ _⟩
  | cons s0 rest ih =>
    intro store t hok hkeys
    have hok0 := hok s0 (List.mem_cons_self _ _)
    have hokr : ∀ x ∈ rest, x.saveRaises = false ∧ x.errIdx = [] :=
      fun x hx => hok x (List.mem_cons_of_mem _ hx)
    have hkeysr : ∀ s ∈ rest, ∀ raw, s.fetch = some raw →
        ∀ l ∈ process_location_data raw s.endpoint, l.key ∈ store.map Row.key :=
      fun s hs => hkeys s (List.mem_cons_of_mem _ hs)
    simp only [runSources]
    rcases hf : s0.fetch with _ | raw0
    · exact ih store t hokr hkeysr
    · rw [hok0.1]
      simp only [if_false, Bool.false_eq_true]
      split
      · exact ih store _ hokr hkeysr
      · have hall : ∀ l ∈ process_location_data raw0 s0.endpoint,
            l.key ∈ store.map Row.key :=
          hkeys s0 (List.mem_cons_self _ _) raw0 hf
        rw [hok0.2]
        obtain ⟨hks, hins, hupd⟩ :=
          save_all_present (process_location_data raw0 s0.endpoint) store hall
        have hkeysr' : ∀ s ∈ rest, ∀ raw, s.fetch = some raw →
            ∀ l ∈ process_location_data raw s.endpoint,
              l.key ∈ ((save_locations_to_db [] (process_location_data raw0 s0.endpoint)
                store).store.map Row.key) := by
          intro s hs raw hraw l hl
          rw [hks]
          exact hkeysr s hs raw hraw l hl
        obtain ⟨ka, kb, kc⟩ :=
          ih (save_locations_to_db [] (process_location_data raw0 s0.endpoint) store).store
            ⟨t.processed + (process_location_data raw0 s0.endpoint).length,
             t.inserted + (save_locations_to_db [] (process_location_data raw0 s0.endpoint) store).inserted,
             t.updated + (save_locations_to_db [] (process_location_data raw0 s0.endpoint) store).updated,
             t.sleeps + 1⟩ hokr hkeysr'
        refine ⟨by rw [ka, hks], ?_, ?_⟩
        · exact kb.trans (by rw [hins]; exact Nat.add_zero _)
        · have kc' : (runSources rest
              (save_locations_to_db [] (process_location_data raw0 s0.endpoint) store).store
              ⟨t.processed + (process_location_data raw0 s0.endpoint).length,
               t.inserted +
                 (save_locations_to_db [] (process_location_data raw0 s0.endpoint) store).inserted,
               t.updated +
                 (save_locations_to_db [] (process_location_data raw0 s0.endpoint) store).updated,
               t.sleeps + 1⟩).2.updated +
              (t.processed + (process_location_data raw0 s0.endpoint).length) =
            (runSources rest
              (save_locations_to_db [] (process_location_data raw0 s0.endpoint) store).store
              ⟨t.processed + (process_location_data raw0 s0.endpoint).length,
               t.inserted +
                 (save_locations_to_db [] (process_location_data raw0 s0.endpoint) store).inserted,
               t.updated +
                 (save_locations_to_db [] (process_location_data raw0 s0.endpoint) store).updated,
               t.sleeps + 1⟩).2.processed +
              (t.updated +
                 (save_locations_to_db [] (process_location_data raw0 s0.endpoint) store).updated) := kc
          omega

/-- C3: running the pipeline a second time with identical source data
(healthy sources, no store errors in either run) inserts zero rows on
the second run, classifies every record of the second run as an update
(updated = processed), and leaves the store's row count identical to
its value after the first run. -/
theorem pipeline_idempotent (schema : DbSchema) (sources : List SourceRun) (store : List Row)
    (hv : verify_table_exists schema = true)
    (hok : ∀ s ∈ sources, s.saveRaises = false ∧ s.errIdx = []) :
    (run_scraper schema sources (run_scraper schema sources store).1).2 =
      Except.ok (runSources sources (run_scraper schema sources store).1 ⟨0, 0, 0, 0⟩).2 ∧
    (runSources sources (run_scraper schema sources store).1 ⟨0, 0, 0, 0⟩).2.inserted = 0 ∧
    (runSources sources (run_scraper schema sources store).1 ⟨0, 0, 0, 0⟩).2.updated =
      (runSources sources (run_scraper schema sources store).1 ⟨0, 0, 0, 0⟩).2.processed ∧
    (run_scraper schema sources (run_scraper schema sources store).1).1.length =
      (run_scraper schema sources store).1.length := by
  have hrun : ∀ st : List Row, run_scraper schema sources st =
      ((runSources sources st ⟨0, 0, 0, 0⟩).1, Except.ok (runSources sources st ⟨0, 0, 0, 0⟩).2) := by
    intro st
    unfold run_scraper
    rw [if_pos hv]
  have hkeys1 : ∀ s ∈ sources, ∀ raw, s.fetch = some raw →
      ∀ l ∈ process_location_data raw s.endpoint,
        l.key ∈ (run_scraper schema sources store).1.map Row.key := by
    rw [hrun store]
    exact runSources_all_keys sources store ⟨0, 0, 0, 0⟩ hok
  obtain ⟨hks, hins, hupd⟩ :=
    runSources_all_present sources (run_scraper schema sources store).1 ⟨0, 0, 0, 0⟩ hok hkeys1
  refine ⟨?_, ?_, ?_, ?_⟩
  · rw [hrun]
  · exact hins
  · simpa using hupd
  · rw [hrun (run_scraper schema sources store).1]
    have hlen := congrArg List.length hks
    simpa using hlen

/-- Witness for `pipeline_idempotent`: two identical runs of one
healthy source against the empty store. -/
theorem pipeline_idempotent_witness :
    ((verify_table_exists okSchema = true) ∧
     (∀ s ∈ [srcP], s.saveRaises = false ∧ s.errIdx = [])) ∧
    ((run_scraper okSchema [srcP] (run_scraper okSchema [srcP] []).1).2 =
       Except.ok (runSources [srcP] (run_scraper okSchema [srcP] []).1 ⟨0, 0, 0, 0⟩).2 ∧
     (runSources [srcP] (run_scraper okSchema [srcP] []).1 ⟨0, 0, 0, 0⟩).2.inserted = 0 ∧
     (runSources [srcP] (run_scraper okSchema [srcP] []).1 ⟨0, 0, 0, 0⟩).2.updated =
       (runSources [srcP] (run_scraper okSchema [srcP] []).1 ⟨0, 0, 0, 0⟩).2.processed ∧
     (run_scraper okSchema [srcP] (run_scraper okSchema [srcP] []).1).1.length =
       (run_scraper okSchema [srcP] []).1.length) :=
  ⟨⟨by decide, by decide⟩, pipeline_idempotent okSchema [srcP] [] (by decide) (by decide)⟩
